import Mathlib

/-!
Verification development for the BASICParser repository: a shallow embedding
of the Commodore 64 BASIC detokenizer (src/scripts/parser.py and
src/scripts/basics.py) together with proofs checking specification claims
against it.  Machine bytes are modelled as Nat, fallible code as Except.
-/

namespace BASICParser

/-- The token language flag of BASICToken.language (src/scripts/basics.py,
line 47): a Python Literal of the two strings BASIC and ASSEMBLY. -/
inductive Language
  | basic
  | assembly
deriving DecidableEq

/-- Failure modes of the embedded lexer, modelling the Python exceptions that
the source can raise while lexing: unaryIndex is the IndexError from
decoded_tokens[-2] in Parser._disambiguate_unary_signs (parser.py line 409);
dotIndex is the IndexError from last_char.token[-1] in
Parser._disambiguate_dot (line 427) when the token text is empty;
addMismatch is the TypeError/ValueError of BASICToken._add_check_other
(basics.py lines 99-110); unknownCmd is the KeyError of BYTE_TO_CMD[...]
under the raise error policy (parser.py line 247). -/
inductive LexError
  | unaryIndex
  | dotIndex
  | addMismatch
  | unknownCmd
deriving DecidableEq

/-- Decidable equality for Except values, so that concrete runs of the
fallible embedded functions can be compared by decide. -/
instance {ε α : Type} [DecidableEq ε] [DecidableEq α] : DecidableEq (Except ε α) :=
  fun x y =>
    match x, y with
    | .error a, .error b =>
        if h : a = b then isTrue (congrArg Except.error h)
        else isFalse (fun hh => h (Except.error.inj hh))
    | .ok a, .ok b =>
        if h : a = b then isTrue (congrArg Except.ok h)
        else isFalse (fun hh => h (Except.ok.inj hh))
    | .error _, .ok _ => isFalse (fun hh => Except.noConfusion hh)
    | .ok _, .error _ => isFalse (fun hh => Except.noConfusion hh)

/-- Lowercase hexadecimal digits, for rendering byte values. -/
def hexDigits : String := "0123456789abcdef"

/-- The hexadecimal digit character for a value below 16. -/
def hexDigitChar (n : Nat) : Char := hexDigits.data.getD n (Char.ofNat 48)

/-- Python f-string 0x{value:02x} used in BASICToken.__init__
(basics.py line 43), for byte values below 256. -/
def byteReprOf (v : Nat) : String :=
  "0x" ++ String.mk [hexDigitChar (v / 16 % 16), hexDigitChar (v % 16)]

/-- ASCII lowercasing of a single character, as Python str.lower does on
the ASCII range. -/
def lowerChar (c : Char) : Char :=
  if 65 ≤ c.toNat ∧ c.toNat ≤ 90 then Char.ofNat (c.toNat + 32) else c

/-- ASCII lowercasing of a string (Python str.lower on ASCII content). -/
def lowerStr (s : String) : String := String.mk (s.data.map lowerChar)

/-- Whether the string starts with the given character
(Python str.startswith with a one-character prefix). -/
def startsWithCh (s : String) (c : Char) : Bool :=
  match s.data with
  | [] => false
  | d :: _ => d == c

/-- The last character of a string, defaulting for the empty string; callers
in the embedding only use it under a guard proving nonemptiness. -/
def strBack (s : String) : Char := s.data.getLastD (Char.ofNat 65)

/-- Modelled from the spec: src/scripts/petscii.py is not in src/.  The
letter class of ASCII_CODES per spec section 6 (letter = A-Z, a-z). -/
def isLetterByte (v : Nat) : Bool :=
  if (65 ≤ v ∧ v ≤ 90) ∨ (97 ≤ v ∧ v ≤ 122) then true else false

/-- Modelled from the spec: src/scripts/petscii.py is not in src/.  The
number class of ASCII_CODES per spec section 6 (digit = 0-9). -/
def isDigitByte (v : Nat) : Bool :=
  if 48 ≤ v ∧ v ≤ 57 then true else false

/-- Modelled from the spec: src/scripts/petscii.py is not in src/.  The
sigil class of ASCII_CODES per spec section 6 (sigil = dollar, percent). -/
def isSigilByte (v : Nat) : Bool :=
  if v = 36 ∨ v = 37 then true else false

/-- Modelled from the spec: src/scripts/petscii.py is not in src/.  The
punctuation class of ASCII_CODES per spec section 6 (the remaining
printables except letters, digits and sigils). -/
def isPunctByte (v : Nat) : Bool :=
  if 32 ≤ v ∧ v ≤ 126 then
    !(isLetterByte v || isDigitByte v || isSigilByte v)
  else false

/-- Modelled from the spec: src/scripts/petscii.py is not in src/.  The
BYTE_TO_CMD table mapping keyword bytes 0x80-0xCB to the BASIC v2 keyword
spellings listed in spec section 6. -/
def BYTE_TO_CMD (v : Nat) : Option String :=
  match v with
  | 0x80 => some "END"
  | 0x81 => some "FOR"
  | 0x82 => some "NEXT"
  | 0x83 => some "DATA"
  | 0x84 => some "INPUT#"
  | 0x85 => some "INPUT"
  | 0x86 => some "DIM"
  | 0x87 => some "READ"
  | 0x88 => some "LET"
  | 0x89 => some "GOTO"
  | 0x8A => some "RUN"
  | 0x8B => some "IF"
  | 0x8C => some "RESTORE"
  | 0x8D => some "GOSUB"
  | 0x8E => some "RETURN"
  | 0x8F => some "REM"
  | 0x90 => some "STOP"
  | 0x91 => some "ON"
  | 0x92 => some "WAIT"
  | 0x93 => some "LOAD"
  | 0x94 => some "SAVE"
  | 0x95 => some "VERIFY"
  | 0x96 => some "DEF"
  | 0x97 => some "POKE"
  | 0x98 => some "PRINT#"
  | 0x99 => some "PRINT"
  | 0x9A => some "CONT"
  | 0x9B => some "LIST"
  | 0x9C => some "CLR"
  | 0x9D => some "CMD"
  | 0x9E => some "SYS"
  | 0x9F => some "OPEN"
  | 0xA0 => some "CLOSE"
  | 0xA1 => some "GET"
  | 0xA2 => some "NEW"
  | 0xA3 => some "TAB("
  | 0xA4 => some "TO"
  | 0xA5 => some "FN"
  | 0xA6 => some "SPC("
  | 0xA7 => some "THEN"
  | 0xA8 => some "NOT"
  | 0xA9 => some "STEP"
  | 0xAA => some "+"
  | 0xAB => some "-"
  | 0xAC => some "*"
  | 0xAD => some "/"
  | 0xAE => some "^"
  | 0xAF => some "AND"
  | 0xB0 => some "OR"
  | 0xB1 => some ">"
  | 0xB2 => some "="
  | 0xB3 => some "<"
  | 0xB4 => some "SGN"
  | 0xB5 => some "INT"
  | 0xB6 => some "ABS"
  | 0xB7 => some "USR"
  | 0xB8 => some "FRE"
  | 0xB9 => some "POS"
  | 0xBA => some "SQR"
  | 0xBB => some "RND"
  | 0xBC => some "LOG"
  | 0xBD => some "EXP"
  | 0xBE => some "COS"
  | 0xBF => some "SIN"
  | 0xC0 => some "TAN"
  | 0xC1 => some "ATN"
  | 0xC2 => some "PEEK"
  | 0xC3 => some "LEN"
  | 0xC4 => some "STR$"
  | 0xC5 => some "VAL"
  | 0xC6 => some "ASC"
  | 0xC7 => some "CHR$"
  | 0xC8 => some "LEFT$"
  | 0xC9 => some "RIGHT$"
  | 0xCA => some "MID$"
  | 0xCB => some "GO"
  | _ => none

/-- Modelled from the spec: src/scripts/petscii.py is not in src/.  The
BYTE_TO_CTRL control-glyph table, with the petcat-convention entries the
spec names in section 6 (clr, home, down, rvon, rvof). -/
def BYTE_TO_CTRL (v : Nat) : Option String :=
  match v with
  | 0x11 => some "{down}"
  | 0x12 => some "{rvon}"
  | 0x13 => some "{home}"
  | 0x92 => some "{rvof}"
  | 0x93 => some "{clr}"
  | _ => none

/-- Modelled from the spec: src/scripts/petscii.py is not in src/.  The
ASSEMBLY_CHARS set per spec sections 4.2.7 and 6: hex digits, commas,
spaces and the dollar sign. -/
def assemblyCharsStr : String := "0123456789abcdefABCDEF, $"

/-- Membership in the modelled ASSEMBLY_CHARS set. -/
def isAssemblyChar (c : Char) : Bool := assemblyCharsStr.data.contains c

/-- Python escape for one byte inside a bytes repr. -/
def pyByteEscape (b : Nat) : String :=
  if b = 0x5C then "\\\\"
  else if b = 0x27 then "\\\x27"
  else if b = 0x09 then "\\t"
  else if b = 0x0A then "\\n"
  else if b = 0x0D then "\\r"
  else if 0x20 ≤ b ∧ b ≤ 0x7E then String.mk [Char.ofNat b]
  else "\\x" ++ String.mk [hexDigitChar (b / 16 % 16), hexDigitChar (b % 16)]

/-- Python str(bytes) rendering, used by the source as the fallback text for
bytes missing from BYTE_TO_CTRL (parser.py lines 185, 240, 278). -/
def pyBytesStr (bs : List Nat) : String :=
  "b" ++ "\x27" ++ String.join (bs.map pyByteEscape) ++ "\x27"

/-- Python bytes.decode with ascii codec and errors replace, on a single
byte: bytes at or above 0x80 become the U+FFFD replacement character. -/
def decodeAsciiReplace (v : Nat) : String :=
  if v ≤ 0x7F then String.mk [Char.ofNat v] else "�"

/-- Modelled from the spec: scripts/tagset.json is not in src/.  Tag of
variables/real.  Tag strings are chosen to satisfy the prefix conventions
the spec states (variables V, numbers N, strings S, array retag VA plus
the kind suffix). -/
def tagVariableReal : String := "VR"

/-- Modelled from the spec: scripts/tagset.json is not in src/.  Tag of
variables/string. -/
def tagVariableString : String := "VS"

/-- Modelled from the spec: scripts/tagset.json is not in src/.  Tag of
variables/integer. -/
def tagVariableInteger : String := "VI"

/-- Modelled from the spec: scripts/tagset.json is not in src/.  Tag of
numbers/integer. -/
def tagNumberInteger : String := "NI"

/-- Modelled from the spec: scripts/tagset.json is not in src/.  Tag of
numbers/real. -/
def tagNumberReal : String := "NR"

/-- Modelled from the spec: scripts/tagset.json is not in src/.  Tag of
strings/string. -/
def tagStringString : String := "SS"

/-- Modelled from the spec: scripts/tagset.json is not in src/.  Tag of
strings/comment. -/
def tagStringComment : String := "SC"

/-- Modelled from the spec: scripts/tagset.json is not in src/.  Tag of
strings/print. -/
def tagStringPrint : String := "SP"

/-- Modelled from the spec: scripts/tagset.json is not in src/.  Tag of
operators/arithmetic. -/
def tagOperArith : String := "OA"

/-- Modelled from the spec: scripts/tagset.json is not in src/.  Tag of
operators/relational. -/
def tagOperRel : String := "OR"

/-- Modelled from the spec: scripts/tagset.json is not in src/.  Tag of
operators/logical. -/
def tagOperLogical : String := "OL"

/-- Modelled from the spec: scripts/tagset.json is not in src/.  Tag of
operators/assignment. -/
def tagOperAssign : String := "OAS"

/-- Modelled from the spec: scripts/tagset.json is not in src/.  Tag of
operators/unary. -/
def tagOperUnary : String := "OU"

/-- Modelled from the spec: scripts/tagset.json is not in src/.  Tag of
punctuations/type. -/
def tagPunctType : String := "PT"

/-- Modelled from the spec: scripts/tagset.json is not in src/.  Tag of
punctuations/other. -/
def tagPunctOther : String := "PO"

/-- Modelled from the spec: scripts/tagset.json is not in src/.  Tag of
data/data. -/
def tagData : String := "DA"

/-- Modelled from the spec: scripts/tagset.json is not in src/.  Tag of
system/time. -/
def tagSystemTime : String := "ZT"

/-- Modelled from the spec: scripts/tagset.json is not in src/.  Tag of
system/IO. -/
def tagSystemIO : String := "ZI"

/-- Modelled from the spec: scripts/tagset.json is not in src/.  Tag of
unknown/unknown. -/
def tagUnknown : String := "UN"

/-- Modelled from the spec: scripts/tagset.json is not in src/.  Tag of the
commands category (a single keyword subcategory). -/
def tagCommand : String := "KW"

/-- Modelled from the spec: scripts/tagset.json is not in src/.  Tag of the
constants category. -/
def tagConstant : String := "CC"

/-- Modelled from the spec: scripts/tagset.json is not in src/.  The values
list of punctuations/type (the sigils). -/
def punctTypeValues : List String := ["$", "%"]

/-- Modelled from the spec: scripts/tagset.json is not in src/.  The values
list of punctuations/other. -/
def punctOtherValues : List String := []

/-- Modelled from the spec: scripts/tagset.json is not in src/.  The values
of the commands category: all keyword spellings of the BYTE_TO_CMD table. -/
def commandValues : List String :=
  ["END", "FOR", "NEXT", "DATA", "INPUT#", "INPUT", "DIM", "READ", "LET",
   "GOTO", "RUN", "IF", "RESTORE", "GOSUB", "RETURN", "REM", "STOP", "ON",
   "WAIT", "LOAD", "SAVE", "VERIFY", "DEF", "POKE", "PRINT#", "PRINT",
   "CONT", "LIST", "CLR", "CMD", "SYS", "OPEN", "CLOSE", "GET", "NEW",
   "TAB(", "TO", "FN", "SPC(", "THEN", "NOT", "STEP", "+", "-", "*", "/",
   "^", "AND", "OR", ">", "=", "<", "SGN", "INT", "ABS", "USR", "FRE",
   "POS", "SQR", "RND", "LOG", "EXP", "COS", "SIN", "TAN", "ATN", "PEEK",
   "LEN", "STR$", "VAL", "ASC", "CHR$", "LEFT$", "RIGHT$", "MID$", "GO"]

/-- Modelled from the spec: scripts/tagset.json is not in src/.  The values
of the constants category (none are needed by the keyword-byte table the
spec gives). -/
def constantValues : List String := []

/-- The token value object of src/scripts/basics.py (class BASICToken):
value is the seeding byte, bytes the full chunked byte sequence (Python
attribute _byte), byteRepr its printable rendering, token the ASCII text,
syn the tag string (Python attribute named after the notion of a tag), and
language the detected line language. -/
structure BASICToken where
  value : Nat
  lineno : Nat
  bytes : List Nat
  byteRepr : String
  token : String
  syn : String
  language : Language
deriving DecidableEq

/-- BASICToken.__init__ with only value and lineno supplied
(basics.py lines 37-47). -/
def mkBToken (value lineno : Nat) : BASICToken :=
  ⟨value, lineno, [value], byteReprOf value, "", "", Language.basic⟩

/-- BASICToken.__add__ (basics.py lines 70-85): the non-mutating chunking
operator.  The lineno/language check of _add_check_other is modelled as the
Option guard; the result is a freshly constructed token, so its tag is empty
and its language the constructor default. -/
def badd (a b : BASICToken) : Option BASICToken :=
  if a.lineno = b.lineno ∧ a.language = b.language then
    some ⟨a.value, a.lineno, a.bytes ++ b.bytes, a.byteRepr ++ b.byteRepr,
          a.token ++ " " ++ b.token, "", Language.basic⟩
  else none

/-- BASICToken.__iadd__ (basics.py lines 87-97): the in-place chunking
operator.  It takes the new byte value as the combined value, joins the
byte representations with a space and the texts without one, and keeps the
receiver's tag, lineno and language. -/
def biadd (a b : BASICToken) : Option BASICToken :=
  if a.lineno = b.lineno ∧ a.language = b.language then
    some { a with value := b.value, bytes := a.bytes ++ b.bytes,
                  byteRepr := a.byteRepr ++ " " ++ b.byteRepr,
                  token := a.token ++ b.token }
  else none

/-- BASICToken.is_whitespace (basics.py line 112): the byte sequence equals
the single space byte. -/
def BASICToken.isWhitespace (t : BASICToken) : Bool :=
  t.bytes == [0x20]

/-- BASICToken.is_digit (basics.py line 116). -/
def BASICToken.isDigit (t : BASICToken) : Bool := isDigitByte t.value

/-- BASICToken.is_letter (basics.py line 120). -/
def BASICToken.isLetter (t : BASICToken) : Bool := isLetterByte t.value

/-- BASICToken.is_sigil (basics.py line 128). -/
def BASICToken.isSigil (t : BASICToken) : Bool := isSigilByte t.value

/-- BASICToken.is_alpha (basics.py lines 132-135): nonempty text whose
first character is an ASCII letter. -/
def BASICToken.isAlpha (t : BASICToken) : Bool :=
  match t.token.data with
  | [] => false
  | c :: _ => isLetterByte c.toNat

/-- Tagger._parse_operator (tagger.py lines 94-104). -/
def parseOperator (b : BASICToken) : Option String :=
  if b.value = 0xAA ∨ b.value = 0xAB ∨ b.value = 0xAC ∨ b.value = 0xAD ∨
     b.value = 0xAE then some tagOperArith
  else if b.value = 0xB1 ∨ b.value = 0xB2 ∨ b.value = 0xB3 then
    some tagOperRel
  else if b.value = 0xA8 ∨ b.value = 0xAF ∨ b.value = 0xB0 then
    some tagOperLogical
  else none

/-- Tagger.parse_command (tagger.py lines 77-92): operators first, then the
commands category values, then constants, else the unknown tag. -/
def parseCommand (b : BASICToken) : String :=
  match parseOperator b with
  | some t => t
  | none =>
    if commandValues.contains b.token then tagCommand
    else if constantValues.contains b.token then tagConstant
    else tagUnknown

/-- Tagger.parse_string (tagger.py lines 48-49). -/
def parseStringTag (_b : BASICToken) : String := tagStringString

/-- Tagger.parse_ascii (tagger.py lines 51-75): classify the byte by ASCII
class; digits are real numbers when the previous token text is a dot. -/
def parseAscii (b : BASICToken) (decodedTokens : List BASICToken) : String :=
  if isLetterByte b.value then tagVariableReal
  else if isDigitByte b.value then
    match decodedTokens.getLast? with
    | some t => if t.token = "." then tagNumberReal else tagNumberInteger
    | none => tagNumberInteger
  else if isSigilByte b.value then tagPunctType
  else if isPunctByte b.value then
    (if punctTypeValues.contains b.token then tagPunctType
     else if punctOtherValues.contains b.token then tagPunctOther
     else tagPunctOther)
  else "unknown"

/-- The per-line lexer state that Parser._lex_line resets at each line
(parser.py lines 162-169). -/
structure LexState where
  commentCmd : Bool
  printCmd : Bool
  stringDecl : Bool
  isDataBlock : Bool
  parenthesis : Nat
  lastChar : Option BASICToken
  appendBtoken : Bool
  decodedTokens : List BASICToken
deriving DecidableEq

/-- The reset state at the start of a line (parser.py lines 162-169). -/
def initState : LexState :=
  ⟨false, false, false, false, 0, none, true, []⟩

/-- Parser._within_string_like_expression (parser.py lines 379-380). -/
def withinStringLike (s : LexState) : Bool :=
  s.printCmd || s.commentCmd || s.stringDecl

/-- Retag the last token of the list, as the Python assignments to
decoded_tokens[-1].syntax attribute do; the empty case is unreachable at
all call sites. -/
def setLastSyn : List BASICToken → String → List BASICToken
  | [], _ => []
  | [t], tag => [{ t with syn := tag }]
  | t :: u :: rest, tag => t :: setLastSyn (u :: rest) tag

/-- Retag the second-to-last token (Python decoded_tokens[-2]). -/
def setPenultSyn : List BASICToken → String → List BASICToken
  | [], _ => []
  | [t], _ => [t]
  | [t, u], tag => [{ t with syn := tag }, u]
  | t :: u :: w :: rest, tag => t :: setPenultSyn (u :: w :: rest) tag

/-- Parser._belongs_to_previous_byte (parser.py lines 364-376). -/
def belongsToPreviousByte (b : BASICToken) (s : LexState) : Bool :=
  match s.lastChar with
  | none => false
  | some last =>
      (b.isDigit && last.isDigit) || (b.isLetter && last.isLetter) ||
      (b.isDigit && last.isLetter) || s.stringDecl ||
      (b.isSigil && startsWithCh last.syn 'V')

/-- Parser._disambiguate_dot (parser.py lines 421-433).  The access
last_char.token[-1] raises IndexError on an empty text, modelled as the
dotIndex error. -/
def disambiguateDot (b : BASICToken) (s : LexState) :
    Except LexError (BASICToken × LexState) :=
  match s.lastChar with
  | none => .ok (b, s)
  | some last =>
      if b.token = "." ∧ last.isDigit then
        .ok ({ b with syn := tagNumberReal },
             { s with decodedTokens := setLastSyn s.decodedTokens tagNumberReal,
                      appendBtoken := false })
      else if last.token = "" then .error .dotIndex
      else if strBack last.token = '.' then
        .ok ({ b with syn := tagNumberReal },
             { s with decodedTokens := setLastSyn s.decodedTokens tagNumberReal,
                      appendBtoken := false })
      else .ok (b, s)

/-- Parser._decode_ascii (parser.py lines 321-361). -/
def decodeAscii (b0 : BASICToken) (s : LexState) :
    Except LexError (BASICToken × LexState) :=
  let b1 := { b0 with token := String.mk [lowerChar (Char.ofNat b0.value)] }
  let b2 := { b1 with syn := parseAscii b1 s.decodedTokens }
  let s1 := { s with appendBtoken := !(belongsToPreviousByte b2 s) }
  let s2 :=
    if b2.bytes = [0x22] then
      let par := s1.parenthesis + 1
      if par = 2 then { s1 with parenthesis := 0, stringDecl := false }
      else { s1 with parenthesis := par, stringDecl := true }
    else s1
  let step3 : Except LexError (BASICToken × LexState) :=
    if s2.stringDecl then .ok ({ b2 with syn := parseStringTag b2 }, s2)
    else if b2.isDigit || (b2.token == ".") then disambiguateDot b2 s2
    else if b2.isSigil then
      (match s2.decodedTokens.getLast? with
       | some last =>
           if last.isAlpha then
             if b2.token = "$" then
               .ok (b2, { s2 with decodedTokens := setLastSyn s2.decodedTokens tagVariableString })
             else
               .ok (b2, { s2 with decodedTokens := setLastSyn s2.decodedTokens tagVariableInteger })
           else .ok ({ b2 with syn := tagPunctOther }, s2)
       | none => .ok ({ b2 with syn := tagPunctOther }, s2))
    else if b2.token = "(" then
      (match s2.decodedTokens.getLast? with
       | some last =>
           if startsWithCh last.syn 'V' then
             .ok (b2, { s2 with decodedTokens := setLastSyn s2.decodedTokens (String.mk ['V', 'A', strBack last.syn]) })
           else .ok (b2, s2)
       | none => .ok (b2, s2))
    else .ok (b2, s2)
  step3.map fun p =>
    match p with
    | (b3, s3) =>
        if s2.isDataBlock ∧ b3.token ≠ "," then ({ b3 with syn := tagData }, s3)
        else (b3, s3)

/-- The backward scan of Parser._disambiguate_equal_sign over the reversed
token list (parser.py lines 439-446): an IF token before any statement
separator makes the equal sign relational, a separator ends the scan. -/
def eqSignScan (b : BASICToken) : List BASICToken → String
  | [] => tagOperAssign
  | t :: rest =>
      if t.token = "IF" then parseCommand b
      else if t.token = ":" ∨ t.token = ";" ∨ t.token = "THEN" then tagOperAssign
      else eqSignScan b rest

/-- Parser._disambiguate_equal_sign (parser.py lines 436-446). -/
def disambiguateEqualSign (b : BASICToken) (toks : List BASICToken) : String :=
  eqSignScan b toks.reverse

/-- Parser._decode_cmd (parser.py lines 223-255). -/
def decodeCmd (repl : Bool) (b0 : BASICToken) (s : LexState) :
    Except LexError (BASICToken × LexState) :=
  let mergeCond : Bool :=
    (b0.value == 0xB1 || b0.value == 0xB2 || b0.value == 0xB3) &&
    (match s.lastChar with
     | some last =>
         (last.value == 0xB1 || last.value == 0xB2 || last.value == 0xB3) &&
         (b0.value != last.value)
     | none => false)
  let s1 := { s with appendBtoken := true }
  let s2 :=
    if mergeCond then { s1 with appendBtoken := false }
    else if b0.value = 0x83 ∧ s.decodedTokens = [] then
      { s1 with isDataBlock := true }
    else s1
  let s3 := { s2 with
    printCmd := if s.printCmd then true else (b0.value == 0x98 || b0.value == 0x99),
    commentCmd := (b0.value == 0x8F) }
  if s.stringDecl then
    .ok ({ b0 with token := (BYTE_TO_CTRL b0.value).getD (pyBytesStr b0.bytes),
                   syn := parseStringTag b0 },
         { s3 with appendBtoken := false })
  else
    match (if repl then some ((BYTE_TO_CMD b0.value).getD "�")
           else BYTE_TO_CMD b0.value) with
    | none => .error .unknownCmd
    | some txt =>
        let b1 := { b0 with token := txt }
        let b2 := { b1 with syn := parseCommand b1 }
        if b2.value = 0xB2 ∧ s.decodedTokens ≠ [] then
          .ok ({ b2 with syn := disambiguateEqualSign b2 s.decodedTokens }, s3)
        else .ok (b2, s3)

/-- The glyph resolution of Parser._decode_comment_statement (parser.py
lines 307-312): control table below 0x20, lowercased ASCII below 0x80,
control table with a decode fallback above. -/
def commentGlyph (v : Nat) (bs : List Nat) : String :=
  if v < 0x20 then (BYTE_TO_CTRL v).getD (pyBytesStr bs)
  else if v < 0x80 then lowerStr (decodeAsciiReplace v)
  else (BYTE_TO_CTRL v).getD (decodeAsciiReplace v)

/-- Parser._decode_comment_statement (parser.py lines 305-318). -/
def decodeComment (b0 : BASICToken) (s : LexState) : BASICToken × LexState :=
  let b1 := { b0 with syn := tagStringComment, token := commentGlyph b0.value b0.bytes }
  let s1 :=
    match s.lastChar with
    | some last => if last.value ≠ 0x8F then { s with appendBtoken := false } else s
    | none => s
  (b1, s1)

/-- Parser._decode_string (parser.py lines 258-302).  The console print of
the unmapped-byte diagnostic (line 298) has no effect on the result and is
not modelled. -/
def decodeString (repl : Bool) (b0 : BASICToken) (s : LexState) :
    Except LexError (BASICToken × LexState) :=
  if b0.bytes = [0x22] then
    let b1 := { b0 with token := "\"" }
    let par := s.parenthesis + 1
    if par = 2 then
      .ok (b1, { s with parenthesis := 0, appendBtoken := false,
                        stringDecl := false })
    else
      .ok (b1, { s with parenthesis := par, appendBtoken := true })
  else if s.parenthesis = 0 then
    let s1 := { s with appendBtoken := true }
    if b0.value < 0x20 then
      .ok ({ b0 with token := (BYTE_TO_CTRL b0.value).getD (pyBytesStr b0.bytes),
                     syn := parseStringTag b0 }, s1)
    else if b0.value ≤ 0x7F then decodeAscii b0 s1
    else decodeCmd repl b0 s1
  else
    let b1 := { b0 with
      token := (BYTE_TO_CTRL b0.value).getD (lowerStr (decodeAsciiReplace b0.value)),
      syn := tagStringString }
    .ok (b1, { s with appendBtoken := false })

/-- The control-character branch of Parser._lex_line (lines 183-189). -/
def decodeCtrl (b0 : BASICToken) (s : LexState) : BASICToken × LexState :=
  let b1 := { b0 with token := (BYTE_TO_CTRL b0.value).getD (pyBytesStr b0.bytes),
                      syn := parseStringTag b0 }
  if s.stringDecl then (b1, { s with appendBtoken := false }) else (b1, s)

/-- Parser._disambiguate_unary_signs (parser.py lines 398-418).  Python
evaluates tokens[-2] before its is_first test is used, so a sign that is
the only emitted token raises IndexError, modelled as unaryIndex. -/
def disambiguateUnarySigns (s : LexState) : Except LexError LexState :=
  match s.lastChar with
  | none => .ok s
  | some last =>
      if last.token = "+" ∨ last.token = "-" then
        let isFirst := s.decodedTokens.length == 1
        match s.decodedTokens.reverse with
        | _ :: prev :: _ =>
            let isNonexpr := !(startsWithCh prev.syn 'V' || startsWithCh prev.syn 'N' ||
                               startsWithCh prev.syn 'S' || prev.token == ")")
            if isFirst || isNonexpr then
              .ok { s with decodedTokens := setLastSyn s.decodedTokens tagOperUnary }
            else .ok s
        | _ => .error .unaryIndex
      else .ok s

/-- Parser._check_for_system_var (parser.py lines 449-461). -/
def checkForSystemVar (toks : List BASICToken) : List BASICToken :=
  match toks.getLast? with
  | none => toks
  | some last =>
      if startsWithCh last.syn 'V' then
        if lowerStr last.token = "ti$" ∨ lowerStr last.token = "time$" then
          setLastSyn toks tagSystemTime
        else if lowerStr last.token = "st" ∨ lowerStr last.token = "status" then
          setLastSyn toks tagSystemIO
        else toks
      else if toks.length > 2 then
        match toks.reverse with
        | _ :: penult :: _ =>
            if lowerStr penult.token = "ti" ∨ lowerStr penult.token = "time" then
              setPenultSyn toks tagSystemTime
            else toks
        | _ => toks
      else toks

/-- The chunking branch of Parser._lex_line (lines 206-213): add the current
token onto the last emitted one in place; an empty list appends instead. -/
def chunkLast : List BASICToken → BASICToken → Except LexError (List BASICToken)
  | [], b => .ok [b]
  | [t], b =>
      match biadd t b with
      | some m => .ok [m]
      | none => .error .addMismatch
  | t :: u :: rest, b => (chunkLast (u :: rest) b).map fun l => t :: l

/-- One iteration of the byte loop of Parser._lex_line (lines 171-216).
After the dispatched handler, the unary-sign pass runs, the token is
appended or chunked, and last_char plus the system-variable pass follow.
Because Python's last_char aliases decoded_tokens[-1], the source's
assignment before _check_for_system_var is equivalent to taking the final
last element, which is what this embedding does. -/
def lexStep (repl : Bool) (lineno : Nat) (s : LexState) (v : Nat) :
    Except LexError LexState :=
  let b0 := mkBToken v lineno
  if b0.isWhitespace && !(withinStringLike s) then .ok s
  else
    let handled : Except LexError (BASICToken × LexState) :=
      if s.stringDecl then decodeString repl b0 s
      else if s.commentCmd then .ok (decodeComment b0 s)
      else if v < 0x20 then .ok (decodeCtrl b0 s)
      else if v ≤ 0x7F then decodeAscii b0 s
      else decodeCmd repl b0 s
    match handled with
    | .error e => .error e
    | .ok (b, s1) =>
        match disambiguateUnarySigns s1 with
        | .error e => .error e
        | .ok s2 =>
            let appended : Except LexError (List BASICToken) :=
              if s2.appendBtoken then .ok (s2.decodedTokens ++ [b])
              else chunkLast s2.decodedTokens b
            match appended with
            | .error e => .error e
            | .ok toks =>
                let toks2 := checkForSystemVar toks
                .ok { s2 with decodedTokens := toks2, lastChar := toks2.getLast? }

/-- Parser._check_line_language (parser.py lines 383-395). -/
def checkLineLanguage (toks : List BASICToken) : List BASICToken :=
  match toks with
  | [] => []
  | t0 :: rest =>
      if lowerStr t0.token = "data" ∧
         (rest.all fun t => t.token.data.all isAssemblyChar) then
        (t0 :: rest).map fun t => { t with language := Language.assembly }
      else t0 :: rest

/-- Parser._lex_line (parser.py lines 155-220): fold the byte loop from the
reset state, then run the line-language pass.  The hexbytes construction
(line 160) yields exactly the byte list for every length, so it is not
modelled separately. -/
def lexLine (repl : Bool) (lineno : Nat) (line : List Nat) :
    Except LexError (List BASICToken) :=
  (line.foldlM (lexStep repl lineno) initState).map fun s =>
    checkLineLanguage s.decodedTokens

/-- The record loop of Parser._detokenize_line (parser.py lines 126-152):
walk the buffer from byte position pos, collecting (lineno, payload) pairs.
The 2-byte link pointer is read but unused in the source.  When no 0x00
terminator exists after the line number, the source logs a warning and
returns from the generator without yielding anything further.  The fuel
argument only serves structural recursion: every iteration advances pos by
at least five bytes while the loop requires pos below length minus four,
so any fuel of at least the buffer length is never exhausted (the lemma
detokenizeFrom_fuel below proves the result is fuel-independent). -/
def detokenizeFrom (binary : List Nat) : Nat → Nat → List (Nat × List Nat)
  | 0, _ => []
  | fuel + 1, pos =>
      if pos < binary.length - 4 then
        let lineno := binary.getD (pos + 2) 0 + 256 * binary.getD (pos + 3) 0
        let rest := binary.drop (pos + 4)
        if lineno == 0 && !rest.isEmpty && rest.all (fun b => b == 0) then []
        else
          match rest.findIdx? (fun b => b == 0) with
          | none => []
          | some k => (lineno, rest.take k) :: detokenizeFrom binary fuel (pos + 4 + k + 1)
      else []

/-- The fuel of detokenizeFrom does not matter once it is at least the
number of bytes after pos: the loop advances pos by at least five bytes
per iteration. -/
lemma detokenizeFrom_fuel (binary : List Nat) :
    ∀ f1 f2 pos, binary.length - pos ≤ f1 → binary.length - pos ≤ f2 →
      detokenizeFrom binary f1 pos = detokenizeFrom binary f2 pos := by
  intro f1
  induction f1 with
  | zero =>
      intro f2 pos h1 _h2
      have hguard : ¬ pos < binary.length - 4 := by omega
      cases f2 with
      | zero => rfl
      | succ g => simp [detokenizeFrom, hguard]
  | succ f ih =>
      intro f2 pos h1 h2
      cases f2 with
      | zero =>
          have hguard : ¬ pos < binary.length - 4 := by omega
          simp [detokenizeFrom, hguard]
      | succ g =>
          by_cases hguard : pos < binary.length - 4
          · simp only [detokenizeFrom, if_pos hguard]
            split
            · rfl
            · split
              · rfl
              · refine congrArg _ (ih g (pos + 4 + _ + 1) ?_ ?_) <;> omega
          · simp [detokenizeFrom, hguard]

/-- Parser._detokenize_line (parser.py lines 109-152): skip the two header
bytes and walk the records. -/
def detokenizeLine (binary : List Nat) : List (Nat × List Nat) :=
  detokenizeFrom binary (binary.length + 1) 2

/-- The record loop of Parser.decode_basic_file (parser.py lines 94-104):
lex each record whose line number lies within the inclusive limits
(0, 2 to the 16th) and stop after a record at or above the upper limit. -/
def decodeLines (repl : Bool) : List (Nat × List Nat) →
    Except LexError (List (Nat × List BASICToken))
  | [] => .ok []
  | (ln, txt) :: rest =>
      if ln ≤ 65536 then
        match lexLine repl ln txt with
        | .error e => .error e
        | .ok toks =>
            if ln ≥ 65536 then .ok [(ln, toks)]
            else (decodeLines repl rest).map fun l => (ln, toks) :: l
      else
        if ln ≥ 65536 then .ok []
        else decodeLines repl rest

/-- Parser.decode_basic_file (parser.py lines 76-106) composed with the
line-record parser; reading the file is replaced by passing its bytes. -/
def decodeBasicFile (repl : Bool) (binary : List Nat) :
    Except LexError (List (Nat × List BASICToken)) :=
  decodeLines repl (detokenizeLine binary)

/-- One output line of BASICFile.save_file (basics.py line 178): the
five-wide right-justified line number, a space, then the token texts
joined by single spaces. -/
def formatLine (lineno : Nat) (toks : List BASICToken) : String :=
  let n := toString lineno
  let pad := String.mk (List.replicate (5 - n.length) (Char.ofNat 32))
  pad ++ n ++ " " ++ String.intercalate " " (toks.map fun t => t.token)

/-- The text BASICFile.save_file writes (basics.py lines 174-184): the
formatted lines joined by newlines. -/
def saveFileText (f : List (Nat × List BASICToken)) : String :=
  String.intercalate "\n" (f.map fun p => formatLine p.1 p.2)

/-- The bytes of end-to-end scenario E1: header 01 08, record pointer 0C 08,
line number 0A 00, payload 99 20 22 48 49 22 terminated by 00, trailing 00 00. -/
def e1Bytes : List Nat :=
  [0x01, 0x08, 0x0C, 0x08, 0x0A, 0x00, 0x99, 0x20, 0x22, 0x48, 0x49, 0x22,
   0x00, 0x00, 0x00]

/-- The payload bytes of end-to-end scenario E6 (the program text B1 and a
two-byte relational operator followed by the digit 2). -/
def e6Line : List Nat := [0x42, 0x31, 0xB1, 0xB2, 0x32]

/-- Claim C1 (counterexample): decoding the E1 file does not give the two
tokens PRINT and the string token with the saved line of five-wide line
number and single-space joins that the claim states, because the space byte
after PRINT is lexed as its own token (print context suppresses the
whitespace skip), making the join three spaces wide. -/
theorem C1_counterexample :
    (decodeBasicFile true e1Bytes).map
        (fun f => f.map fun p => (p.1, p.2.map fun t => t.token)) ≠
      .ok [(10, ["PRINT", "\"hi\""])] ∧
    (decodeBasicFile true e1Bytes).map saveFileText ≠ .ok "   10 PRINT \"hi\"" := by
  constructor
  · decide
  · decide

/-- Claim C1 (amended): decoding the E1 file yields one record with line
number 10 and three tokens - PRINT, a single-space token, and the chunked
string token with text "hi" - and the saved text output is the single line
of the five-wide right-justified line number and the token texts joined by
single spaces, which renders three spaces between PRINT and the string. -/
theorem C1_amended :
    (decodeBasicFile true e1Bytes).map
        (fun f => f.map fun p => (p.1, p.2.map fun t => (t.token, t.syn))) =
      .ok [(10, [("PRINT", tagCommand), (" ", tagPunctOther),
                 ("\"hi\"", tagStringString)])] ∧
    (decodeBasicFile true e1Bytes).map saveFileText =
      .ok "   10 PRINT   \"hi\"" := by
  constructor
  · decide
  · decide

/-- Claim C2 (code evaluated at the failing input): lexing the E6 payload
produces chunked tokens whose value field is the value of the last byte
chunked in, not the seed byte: the token chunked from 0x42 0x31 carries
value 0x31 and the one chunked from 0xB1 0xB2 carries value 0xB2, because
BASICToken.__iadd__ overwrites value with the new byte's value. -/
theorem C2_value_not_seed :
    (lexLine true 50 e6Line).map (fun ts => ts.map fun t => (t.bytes, t.value)) =
      .ok [([0x42, 0x31], 0x31), ([0xB1, 0xB2], 0xB2), ([0x32], 0x32)] ∧
    (0x31 : Nat) ≠ 0x42 ∧ (0xB2 : Nat) ≠ 0xB1 := by
  refine ⟨by decide, by decide, by decide⟩

/-- Claim C3 (code evaluated at the failing input): lexing a line whose
first token is the plus sign followed by a further byte does not complete;
the unary-sign pass evaluates decoded_tokens[-2] on a one-element token
list and raises IndexError. -/
theorem C3_unary_index_error :
    lexLine true 10 [0xAA, 0x31] = .error .unaryIndex := by decide

/-- Claim C6 (code evaluated at the failing input): a file whose record for
line 10 has no 0x00 terminator yields no records at all - the generator
returns after the warning without yielding the truncated remainder, so the
result is empty rather than the single pair of line 10 with payload 99 21. -/
theorem C6_truncated_dropped :
    detokenizeLine [0x01, 0x08, 0x0C, 0x08, 0x0A, 0x00, 0x99, 0x21] = [] ∧
    ([] : List (Nat × List Nat)) ≠ [(10, [0x99, 0x21])] := by
  refine ⟨by decide, by decide⟩

/-- Claim C7 (counterexample): a line whose bytes are the REM command byte
followed by a second 0x8F and a letter lexes to three tokens, so two tokens
follow the REM keyword rather than the single comment token the claim
states: a byte following a token whose value is 0x8F keeps the append flag
set and starts a fresh token. -/
theorem C7_counterexample :
    (lexLine true 10 [0x8F, 0x8F, 0x41]).map (fun ts => ts.map fun t => t.token) =
      .ok ["REM", "�", "a"] ∧
    (lexLine true 10 [0x8F, 0x8F, 0x41]).map (fun ts => ts.length) ≠ .ok 2 := by
  refine ⟨by decide, by decide⟩

/-- Claim C5 (counterexample): lexing the E6 payload does not produce the
middle token text claimed - byte 0xB1 spells the greater-than sign and
0xB2 the equal sign, so the chunked two-byte operator reads as greater
or equal, not less or equal. -/
theorem C5_counterexample :
    (lexLine true 50 e6Line).map (fun ts => ts.map fun t => t.token) ≠
      .ok ["b1", "<=", "2"] := by decide

set_option maxHeartbeats 1600000 in
/-- Claim C5 (amended): a command byte among 0xB1, 0xB2, 0xB3 processed
outside a string is concatenated onto the previous token exactly when that
token's value is also in the set and differs from the current byte; lexing
the E6 payload yields the tokens b1 (variable), the chunked relational
operator spelled greater-or-equal, and the integer 2. -/
theorem C5_amended :
    (∀ (repl : Bool) (lineno : Nat) (s : LexState) (v : Nat),
        (v = 0xB1 ∨ v = 0xB2 ∨ v = 0xB3) → s.stringDecl = false →
        ∃ b1 s1, decodeCmd repl (mkBToken v lineno) s = .ok (b1, s1) ∧
          (s1.appendBtoken = false ↔
            ∃ last, s.lastChar = some last ∧
              (last.value = 0xB1 ∨ last.value = 0xB2 ∨ last.value = 0xB3) ∧
              v ≠ last.value)) ∧
    (lexLine true 50 e6Line).map (fun ts => ts.map fun t => (t.token, t.syn)) =
      .ok [("b1", tagVariableReal), (">=", tagOperRel), ("2", tagNumberInteger)] := by
  constructor
  · intro repl lineno s v hv hsd
    rcases hv with hv | hv | hv
    · subst hv
      have h1 : BYTE_TO_CMD 0xB1 = some (">") := rfl
      cases hlc : s.lastChar with
      | none =>
          simp [decodeCmd, mkBToken, hsd, hlc, h1]
          exact ⟨_, _, ⟨rfl, rfl⟩, rfl⟩
      | some last =>
          cases hmcB : ((last.value == 0xB1 || last.value == 0xB2 || last.value == 0xB3) && (0xB1 != last.value)) with
          | true =>
              simp [decodeCmd, mkBToken, hsd, hlc, h1, hmcB]
              refine ⟨_, _, ⟨rfl, rfl⟩, ?_⟩
              simp at hmcB
              tauto
          | false =>
              simp [decodeCmd, mkBToken, hsd, hlc, h1, hmcB]
              refine ⟨_, _, ⟨rfl, rfl⟩, ?_⟩
              simp at hmcB
              tauto
    · subst hv
      have h2 : BYTE_TO_CMD 0xB2 = some ("=") := rfl
      cases hlc : s.lastChar with
      | none =>
          by_cases hB2 : s.decodedTokens = []
          · simp [decodeCmd, mkBToken, hsd, hlc, h2, hB2]
            exact ⟨_, _, ⟨rfl, rfl⟩, rfl⟩
          · simp [decodeCmd, mkBToken, hsd, hlc, h2, hB2]
            exact ⟨_, _, ⟨rfl, rfl⟩, rfl⟩
      | some last =>
          cases hmcB : ((last.value == 0xB1 || last.value == 0xB2 || last.value == 0xB3) && (0xB2 != last.value)) with
          | true =>
              by_cases hB2 : s.decodedTokens = []
              · simp [decodeCmd, mkBToken, hsd, hlc, h2, hmcB, hB2]
                refine ⟨_, _, ⟨rfl, rfl⟩, ?_⟩
                simp at hmcB
                tauto
              · simp [decodeCmd, mkBToken, hsd, hlc, h2, hmcB, hB2]
                refine ⟨_, _, ⟨rfl, rfl⟩, ?_⟩
                simp at hmcB
                tauto
          | false =>
              by_cases hB2 : s.decodedTokens = []
              · simp [decodeCmd, mkBToken, hsd, hlc, h2, hmcB, hB2]
                refine ⟨_, _, ⟨rfl, rfl⟩, ?_⟩
                simp at hmcB
                tauto
              · simp [decodeCmd, mkBToken, hsd, hlc, h2, hmcB, hB2]
                refine ⟨_, _, ⟨rfl, rfl⟩, ?_⟩
                simp at hmcB
                tauto
    · subst hv
      have h3 : BYTE_TO_CMD 0xB3 = some ("<") := rfl
      cases hlc : s.lastChar with
      | none =>
          simp [decodeCmd, mkBToken, hsd, hlc, h3]
          exact ⟨_, _, ⟨rfl, rfl⟩, rfl⟩
      | some last =>
          cases hmcB : ((last.value == 0xB1 || last.value == 0xB2 || last.value == 0xB3) && (0xB3 != last.value)) with
          | true =>
              simp [decodeCmd, mkBToken, hsd, hlc, h3, hmcB]
              refine ⟨_, _, ⟨rfl, rfl⟩, ?_⟩
              simp at hmcB
              tauto
          | false =>
              simp [decodeCmd, mkBToken, hsd, hlc, h3, hmcB]
              refine ⟨_, _, ⟨rfl, rfl⟩, ?_⟩
              simp at hmcB
              tauto
  · decide

/-- A concrete lexer state for the claim C5 witness: a greater-than token
of value 0xB1 was just emitted on line 3. -/
def c5State : LexState :=
  ⟨false, false, false, false, 0,
   some ⟨0xB1, 3, [0xB1], "0xb1", ">", "OR", Language.basic⟩, true,
   [⟨0xB1, 3, [0xB1], "0xb1", ">", "OR", Language.basic⟩]⟩

/-- Claim C5 witness: the equal-sign byte after a fresh greater-than token
is chunked onto it (the append flag comes out false). -/
theorem C5_witness :
    ∃ b1 s1, decodeCmd true (mkBToken 0xB2 3) c5State = .ok (b1, s1) ∧
      (s1.appendBtoken = false ↔
        ∃ last, c5State.lastChar = some last ∧
          (last.value = 0xB1 ∨ last.value = 0xB2 ∨ last.value = 0xB3) ∧
          (0xB2 : Nat) ≠ last.value) :=
  C5_amended.1 true 3 c5State 0xB2 (Or.inr (Or.inl rfl)) rfl

/-- The stopping tokens of the equal-sign backward scan: an IF keyword or
one of the statement separators. -/
def isEqScanStop (t : BASICToken) : Bool :=
  t.token == "IF" || t.token == ":" || t.token == ";" || t.token == "THEN"

/-- Declarative reading of the equal-sign scan used by claim C4: among the
already-emitted tokens read backwards, the first stopping token exists and
is IF. -/
def scanFindsIF (toks : List BASICToken) : Bool :=
  match toks.reverse.find? isEqScanStop with
  | some t => t.token == "IF"
  | none => false

/-- The loop of the equal-sign disambiguation computes exactly the
first-stopping-token characterisation: it returns the relational result at
an IF, and the assignment tag at a separator or when the scan runs out. -/
lemma eqSignScan_eq_find (b : BASICToken) :
    ∀ rts : List BASICToken,
      eqSignScan b rts =
        (match rts.find? isEqScanStop with
         | some t => if t.token = "IF" then parseCommand b else tagOperAssign
         | none => tagOperAssign) := by
  intro rts
  induction rts with
  | nil => rfl
  | cons t rest ih =>
      cases hstop : isEqScanStop t with
      | true =>
          simp only [List.find?_cons, hstop]
          by_cases hIF : t.token = "IF"
          · simp [eqSignScan, hIF]
          · have hsep : t.token = ":" ∨ t.token = ";" ∨ t.token = "THEN" := by
              simp [isEqScanStop, hIF] at hstop
              tauto
            simp [eqSignScan, hIF, hsep]
      | false =>
          have hnone : ¬ t.token = "IF" ∧ ¬ t.token = ":" ∧ ¬ t.token = ";" ∧
              ¬ t.token = "THEN" := by
            simp [isEqScanStop] at hstop
            tauto
          simp only [List.find?_cons, hstop]
          rw [← ih]
          simp [eqSignScan, hnone.1, hnone.2.1, hnone.2.2.1, hnone.2.2.2]

/-- A token whose value is the equal-sign command byte is tagged relational
by the command tagger. -/
lemma parseCommand_eq_rel (b : BASICToken) (h : b.value = 0xB2) :
    parseCommand b = tagOperRel := by
  simp [parseCommand, parseOperator, h]

/-- Claim C4: when the command byte 0xB2 is lexed outside a string with
tokens already on the line, the equal sign is tagged relational exactly
when the backward scan meets an IF before any statement separator, and
assignment otherwise; the scan stops at the first separator. -/
theorem C4_equal_sign (repl : Bool) (lineno : Nat) (s : LexState)
    (hsd : s.stringDecl = false) (hne : s.decodedTokens ≠ []) :
    ∃ b1 s1, decodeCmd repl (mkBToken 0xB2 lineno) s = .ok (b1, s1) ∧
      b1.syn = (if scanFindsIF s.decodedTokens then tagOperRel else tagOperAssign) := by
  have hcmd : BYTE_TO_CMD 0xB2 = some ("=") := rfl
  cases repl with
  | true =>
      simp [decodeCmd, mkBToken, hsd, hne, hcmd]
      rw [disambiguateEqualSign, eqSignScan_eq_find, scanFindsIF]
      cases hfind : s.decodedTokens.reverse.find? isEqScanStop with
      | none => simp
      | some t =>
          by_cases hIF : t.token = "IF"
          · simp [hIF]
            exact parseCommand_eq_rel _ rfl
          · simp [hIF]
  | false =>
      simp [decodeCmd, mkBToken, hsd, hne, hcmd]
      rw [disambiguateEqualSign, eqSignScan_eq_find, scanFindsIF]
      cases hfind : s.decodedTokens.reverse.find? isEqScanStop with
      | none => simp
      | some t =>
          by_cases hIF : t.token = "IF"
          · simp [hIF]
            exact parseCommand_eq_rel _ rfl
          · simp [hIF]

/-- A concrete lexer state for the claim C4 witness: the tokens IF and a
variable a are already on line 20. -/
def c4State : LexState :=
  ⟨false, false, false, false, 0,
   some ⟨0x41, 20, [0x41], "0x41", "a", "VR", Language.basic⟩, true,
   [⟨0x8B, 20, [0x8B], "0x8b", "IF", "KW", Language.basic⟩,
    ⟨0x41, 20, [0x41], "0x41", "a", "VR", Language.basic⟩]⟩

/-- Claim C4 witness: the equal sign lexed after IF and a variable is
tagged by the scan characterisation. -/
theorem C4_witness :
    ∃ b1 s1, decodeCmd true (mkBToken 0xB2 20) c4State = .ok (b1, s1) ∧
      b1.syn = (if scanFindsIF c4State.decodedTokens then tagOperRel else tagOperAssign) :=
  C4_equal_sign true 20 c4State rfl (by decide)

/-- Claim C10: on tokens of equal line number and language with nonempty
texts, the non-mutating addition and the in-place addition disagree - the
former keeps the left value, joins byte representations without a separator
and the texts with a space, while the latter takes the right value, joins
byte representations with a space and the texts without one. -/
theorem C10_add_iadd_differ (a b : BASICToken)
    (hln : a.lineno = b.lineno) (hlang : a.language = b.language)
    (_ha : a.token ≠ "") (_hb : b.token ≠ "") :
    ∃ c d, badd a b = some c ∧ biadd a b = some d ∧ c ≠ d ∧
      c.token = a.token ++ " " ++ b.token ∧ c.value = a.value ∧
      c.byteRepr = a.byteRepr ++ b.byteRepr ∧
      d.token = a.token ++ b.token ∧ d.value = b.value ∧
      d.byteRepr = a.byteRepr ++ " " ++ b.byteRepr := by
  have hc : badd a b = some ⟨a.value, a.lineno, a.bytes ++ b.bytes,
      a.byteRepr ++ b.byteRepr, a.token ++ " " ++ b.token, "", Language.basic⟩ := by
    simp [badd, hln, hlang]
  have hd : biadd a b = some ⟨b.value, a.lineno, a.bytes ++ b.bytes,
      a.byteRepr ++ " " ++ b.byteRepr, a.token ++ b.token, a.syn, a.language⟩ := by
    simp [biadd, hln, hlang]
  refine ⟨_, _, hc, hd, ?_, rfl, rfl, rfl, rfl, rfl, rfl⟩
  intro hcd
  have htok := congrArg BASICToken.token hcd
  have hlen := congrArg String.length htok
  simp [String.length_append] at hlen
  exact absurd hlen (by decide)

/-- Claim C10 witness at two concrete one-letter tokens on line 1. -/
theorem C10_witness :
    (⟨65, 1, [65], "0x41", "a", "VR", Language.basic⟩ : BASICToken).lineno =
        (⟨66, 1, [66], "0x42", "b", "VR", Language.basic⟩ : BASICToken).lineno ∧
    (∃ c d, badd ⟨65, 1, [65], "0x41", "a", "VR", Language.basic⟩
              ⟨66, 1, [66], "0x42", "b", "VR", Language.basic⟩ = some c ∧
        biadd ⟨65, 1, [65], "0x41", "a", "VR", Language.basic⟩
              ⟨66, 1, [66], "0x42", "b", "VR", Language.basic⟩ = some d ∧ c ≠ d ∧
        c.token = "a" ++ " " ++ "b" ∧ c.value = 65 ∧
        c.byteRepr = "0x41" ++ "0x42" ∧
        d.token = "a" ++ "b" ∧ d.value = 66 ∧
        d.byteRepr = "0x41" ++ " " ++ "0x42") :=
  ⟨rfl, C10_add_iadd_differ _ _ rfl rfl (by decide) (by decide)⟩

/-- The claim C9 invariant: the string-declaration flag holds exactly when
the quote counter parenthesis is one, and the counter never exceeds one at
a byte-processing boundary. -/
def stringInv (s : LexState) : Prop :=
  (s.stringDecl = true ↔ s.parenthesis = 1) ∧ s.parenthesis ≤ 1

/-- The unary-sign pass never changes the string flag or the quote
counter. -/
lemma unary_flags (s : LexState) (s1 : LexState)
    (h : disambiguateUnarySigns s = .ok s1) :
    s1.stringDecl = s.stringDecl ∧ s1.parenthesis = s.parenthesis := by
  unfold disambiguateUnarySigns at h
  split at h
  · cases h; exact ⟨rfl, rfl⟩
  · split at h
    · split at h
      · dsimp only at h
        split at h
        · cases h; exact ⟨rfl, rfl⟩
        · cases h; exact ⟨rfl, rfl⟩
      · cases h
    · cases h; exact ⟨rfl, rfl⟩

/-- The comment sub-lexer never changes the string flag or the quote
counter. -/
lemma decodeComment_flags (b0 : BASICToken) (s : LexState) :
    (decodeComment b0 s).2.stringDecl = s.stringDecl ∧
    (decodeComment b0 s).2.parenthesis = s.parenthesis := by
  unfold decodeComment
  dsimp only
  split <;> (try split) <;> exact ⟨rfl, rfl⟩

/-- The control-character branch never changes the string flag or the
quote counter. -/
lemma decodeCtrl_flags (b0 : BASICToken) (s : LexState) :
    (decodeCtrl b0 s).2.stringDecl = s.stringDecl ∧
    (decodeCtrl b0 s).2.parenthesis = s.parenthesis := by
  unfold decodeCtrl
  dsimp only
  split <;> exact ⟨rfl, rfl⟩

/-- The command sub-lexer never changes the string flag or the quote
counter. -/
lemma decodeCmd_flags (repl : Bool) (b0 : BASICToken) (s : LexState)
    (b1 : BASICToken) (s1 : LexState)
    (h : decodeCmd repl b0 s = .ok (b1, s1)) :
    s1.stringDecl = s.stringDecl ∧ s1.parenthesis = s.parenthesis := by
  unfold decodeCmd at h
  dsimp only at h
  split at h
  · cases h
    constructor <;> (repeat' split) <;> rfl
  · split at h
    · cases h
    · split at h
      · cases h
        constructor <;> (repeat' split) <;> rfl
      · cases h
        constructor <;> (repeat' split) <;> rfl


/-- The invariant only depends on the string flag and the quote counter. -/
lemma stringInv_congr (s s1 : LexState) (h1 : s1.stringDecl = s.stringDecl)
    (h2 : s1.parenthesis = s.parenthesis) (h : stringInv s) : stringInv s1 := by
  unfold stringInv at h ⊢
  rw [h1, h2]
  exact h

/-- Inversion for a mapped Except value that came out ok. -/
lemma exceptMap_ok {ε α β : Type} (f : α → β) (e : Except ε α) (b : β)
    (h : Except.map f e = Except.ok b) : ∃ a, e = Except.ok a ∧ f a = b := by
  cases e with
  | error er => simp [Except.map] at h
  | ok a =>
      refine ⟨a, rfl, ?_⟩
      simpa [Except.map] using h

/-- The dot disambiguation never changes the string flag or the quote
counter. -/
lemma disambiguateDot_flags (b0 : BASICToken) (s : LexState)
    (b1 : BASICToken) (s1 : LexState)
    (h : disambiguateDot b0 s = .ok (b1, s1)) :
    s1.stringDecl = s.stringDecl ∧ s1.parenthesis = s.parenthesis := by
  unfold disambiguateDot at h
  split at h
  · cases h; exact ⟨rfl, rfl⟩
  · split at h
    · cases h; exact ⟨rfl, rfl⟩
    · split at h
      · cases h
      · split at h
        · cases h; exact ⟨rfl, rfl⟩
        · cases h; exact ⟨rfl, rfl⟩

/-- The ASCII sub-lexer preserves the claim C9 invariant when entered with
the string flag off: a quote byte moves the state to flag on with counter
one (the transient value two is reset within the same call), anything else
leaves both untouched. -/
lemma decodeAscii_stringInv (b0 : BASICToken) (s : LexState)
    (b1 : BASICToken) (s1 : LexState)
    (hinv : stringInv s) (hsd : s.stringDecl = false)
    (h : decodeAscii b0 s = .ok (b1, s1)) :
    stringInv s1 := by
  have hpar : s.parenthesis = 0 := by
    rcases hinv with ⟨hiff, hle⟩
    rcases Nat.lt_or_ge s.parenthesis 1 with hlt | hge
    · omega
    · exfalso
      have h1 : s.parenthesis = 1 := by omega
      have h2 := hiff.mpr h1
      rw [hsd] at h2
      exact Bool.false_ne_true h2
  unfold decodeAscii at h
  dsimp only at h
  split at h
  case isTrue hq =>
    rw [hpar] at h
    norm_num at h
    obtain ⟨⟨pb, ps⟩, hok, hfp⟩ := exceptMap_ok _ _ _ h
    cases hok
    split at hfp <;> (cases hfp; exact ⟨by simp, by simp⟩)
  case isFalse hq =>
    split at h
    case isTrue hcond => simp [hsd] at hcond
    case isFalse hcond =>
      split at h
      · obtain ⟨⟨pb, ps⟩, hdot, hfp⟩ := exceptMap_ok _ _ _ h
        have hfl := disambiguateDot_flags _ _ _ _ hdot
        split at hfp <;> (cases hfp; exact stringInv_congr s _ hfl.1 hfl.2 hinv)
      · repeat' split at h
        all_goals
          obtain ⟨⟨pb, ps⟩, hok, hfp⟩ := exceptMap_ok _ _ _ h
        all_goals cases hok
        all_goals split at hfp <;> (cases hfp; exact stringInv_congr s _ rfl rfl hinv)


/-- The string sub-lexer preserves the claim C9 invariant when entered with
the string flag on: the invariant forces the counter to one, so a closing
quote resets to flag off and counter zero, and the counter-zero branch is
never taken. -/
lemma decodeString_stringInv (repl : Bool) (b0 : BASICToken) (s : LexState)
    (b1 : BASICToken) (s1 : LexState)
    (hinv : stringInv s) (hsd : s.stringDecl = true)
    (h : decodeString repl b0 s = .ok (b1, s1)) :
    stringInv s1 := by
  have hpar : s.parenthesis = 1 := hinv.1.mp hsd
  unfold decodeString at h
  dsimp only at h
  split at h
  · rw [hpar] at h
    norm_num at h
    obtain ⟨hb, hs⟩ := h
    subst hs
    refine ⟨?_, ?_⟩ <;> dsimp only <;> decide
  · split at h
    case isTrue hc => rw [hpar] at hc; exact absurd hc (by norm_num)
    case isFalse hc =>
      cases h
      exact stringInv_congr s _ rfl rfl hinv

/-- One byte of the lexer loop preserves the claim C9 invariant. -/
lemma lexStep_stringInv (repl : Bool) (lineno : Nat) (s : LexState) (v : Nat)
    (s1 : LexState) (hinv : stringInv s)
    (h : lexStep repl lineno s v = .ok s1) : stringInv s1 := by
  unfold lexStep at h
  dsimp only at h
  split at h
  · cases h; exact hinv
  · split at h
    · -- the handled match returned an error
      cases h
    · rename_i b s1mid heq
      have hmid : stringInv s1mid := by
        split at heq
        case isTrue hsd => exact decodeString_stringInv _ _ _ _ _ hinv hsd heq
        case isFalse hsd =>
          have hsdf : s.stringDecl = false := by
            cases hx : s.stringDecl
            · rfl
            · exact absurd hx hsd
          split at heq
          · have hpair : decodeComment (mkBToken v lineno) s = (b, s1mid) := Except.ok.inj heq
            have hfl := decodeComment_flags (mkBToken v lineno) s
            rw [hpair] at hfl
            exact stringInv_congr s _ hfl.1 hfl.2 hinv
          · split at heq
            · have hpair : decodeCtrl (mkBToken v lineno) s = (b, s1mid) := Except.ok.inj heq
              have hfl := decodeCtrl_flags (mkBToken v lineno) s
              rw [hpair] at hfl
              exact stringInv_congr s _ hfl.1 hfl.2 hinv
            · split at heq
              · exact decodeAscii_stringInv _ _ _ _ hinv hsdf heq
              · have hfl := decodeCmd_flags _ _ _ _ _ heq
                exact stringInv_congr s _ hfl.1 hfl.2 hinv
      split at h
      · cases h
      · rename_i s2 hequ
        have h2 : stringInv s2 := by
          have hfl := unary_flags _ _ hequ
          exact stringInv_congr s1mid _ hfl.1 hfl.2 hmid
      
        split at h
        · cases h
        · cases h
          exact stringInv_congr s2 _ rfl rfl h2


/-- A property preserved by every successful lexer step holds after any
successful run of the byte loop. -/
lemma foldlM_lexStep_inv (repl : Bool) (lineno : Nat) (P : LexState → Prop)
    (hstep : ∀ s v s1, P s → lexStep repl lineno s v = .ok s1 → P s1) :
    ∀ (bs : List Nat) (s s1 : LexState), P s →
      List.foldlM (lexStep repl lineno) s bs = .ok s1 → P s1 := by
  intro bs
  induction bs with
  | nil =>
      intro s s1 hP h
      simp only [List.foldlM_nil, pure] at h
      cases h
      exact hP
  | cons b rest ih =>
      intro s s1 hP h
      rw [List.foldlM_cons] at h
      cases hs2 : lexStep repl lineno s b with
      | error e => rw [hs2] at h; simp [Bind.bind, Except.bind] at h
      | ok s2 =>
          rw [hs2] at h
          simp only [Bind.bind, Except.bind] at h
          exact ih s2 s1 (hstep s b s2 hP hs2) h

/-- The reset state satisfies the claim C9 invariant. -/
lemma initState_stringInv : stringInv initState := by
  constructor
  · constructor <;> intro h <;> simp [initState] at h
  · simp [initState]

/-- Claim C9: at every byte-processing boundary of any line the lexer
state satisfies string_decl iff parenthesis equals one with parenthesis at
most one, and consequently the branch of the string sub-lexer that handles
string_decl with parenthesis zero is unreachable (the dispatch enters the
string sub-lexer only with string_decl set, and then the counter is never
zero). -/
theorem C9_string_parenthesis_invariant :
    (∀ (repl : Bool) (lineno : Nat) (bs : List Nat) (s1 : LexState),
        List.foldlM (lexStep repl lineno) initState bs = .ok s1 → stringInv s1) ∧
    (∀ s : LexState, stringInv s → s.stringDecl = true → s.parenthesis ≠ 0) := by
  constructor
  · intro repl lineno bs s1 h
    exact foldlM_lexStep_inv repl lineno stringInv
      (fun s v s2 hP hstep => lexStep_stringInv repl lineno s v s2 hP hstep)
      bs initState s1 initState_stringInv h
  · intro s hinv hsd
    have := hinv.1.mp hsd
    omega

/-- The lexer state after processing a single quote byte on line 7, used by
the claim C9 witness. -/
def c9State : LexState :=
  ⟨false, false, true, false, 1,
   some ⟨34, 7, [34], "0x22", "\"", "SS", Language.basic⟩, true,
   [⟨34, 7, [34], "0x22", "\"", "SS", Language.basic⟩]⟩

/-- Claim C9 witness: the state reached after one quote byte satisfies the
invariant, and its quote counter is not zero. -/
theorem C9_witness : stringInv c9State ∧ c9State.parenthesis ≠ 0 :=
  have h1 := C9_string_parenthesis_invariant.1 true 7 [0x22] c9State (by decide)
  ⟨h1, C9_string_parenthesis_invariant.2 c9State h1 rfl⟩

/-- Every token of the list carries the BASIC language flag.  During the
byte loop this holds for all emitted tokens, since only the final
line-language pass ever writes the language field. -/
def allBasic (ts : List BASICToken) : Prop :=
  ∀ t ∈ ts, t.language = Language.basic

/-- allBasic transfers along equality of the language image. -/
lemma allBasic_of_languages_eq (ts1 ts2 : List BASICToken)
    (hmap : ts1.map BASICToken.language = ts2.map BASICToken.language)
    (h : allBasic ts2) : allBasic ts1 := by
  intro t ht
  have hmem : t.language ∈ ts1.map BASICToken.language := List.mem_map_of_mem _ ht
  rw [hmap] at hmem
  obtain ⟨u, hu, hul⟩ := List.mem_map.mp hmem
  rw [← hul]
  exact h u hu

/-- Retagging the last token leaves all languages unchanged. -/
lemma setLastSyn_languages (tag : String) :
    ∀ ts : List BASICToken,
      (setLastSyn ts tag).map BASICToken.language = ts.map BASICToken.language := by
  intro ts
  induction ts with
  | nil => rfl
  | cons x rest ih =>
      cases rest with
      | nil => rfl
      | cons y rest2 =>
          simp only [setLastSyn, List.map_cons]
          rw [ih]
          simp

/-- Retagging the second-to-last token leaves all languages unchanged. -/
lemma setPenultSyn_languages (tag : String) :
    ∀ ts : List BASICToken,
      (setPenultSyn ts tag).map BASICToken.language = ts.map BASICToken.language := by
  intro ts
  induction ts with
  | nil => rfl
  | cons x rest ih =>
      cases rest with
      | nil => rfl
      | cons y rest2 =>
          cases rest2 with
          | nil => rfl
          | cons z rest3 =>
              simp only [setPenultSyn, List.map_cons]
              rw [ih]
              simp

/-- The system-variable pass preserves allBasic. -/
lemma checkForSystemVar_allBasic (ts : List BASICToken) (h : allBasic ts) :
    allBasic (checkForSystemVar ts) := by
  unfold checkForSystemVar
  split
  · exact h
  · split
    · split
      · exact allBasic_of_languages_eq _ _ (setLastSyn_languages _ _) h
      · split
        · exact allBasic_of_languages_eq _ _ (setLastSyn_languages _ _) h
        · exact h
    · split
      · split
        · split
          · exact allBasic_of_languages_eq _ _ (setPenultSyn_languages _ _) h
          · exact h
        · exact h
      · exact h

/-- In-place chunking keeps the receiver token's language. -/
lemma biadd_language (a b m : BASICToken) (h : biadd a b = some m) :
    m.language = a.language := by
  unfold biadd at h
  split at h
  · cases h; rfl
  · cases h

/-- Chunking a BASIC token onto an all-BASIC list keeps it all BASIC. -/
lemma chunkLast_allBasic (b : BASICToken) (hb : b.language = Language.basic) :
    ∀ ts toks, allBasic ts → chunkLast ts b = .ok toks → allBasic toks := by
  intro ts
  induction ts with
  | nil =>
      intro toks h hc u hu
      simp only [chunkLast] at hc
      cases hc
      simp at hu
      subst hu
      exact hb
  | cons x rest ih =>
      intro toks h hc
      cases rest with
      | nil =>
          simp only [chunkLast] at hc
          cases hbi : biadd x b with
          | none => rw [hbi] at hc; cases hc
          | some m =>
              rw [hbi] at hc
              cases hc
              intro u hu
              simp at hu
              rw [hu, biadd_language x b m hbi]
              exact h x (by simp)
      | cons y rest2 =>
          simp only [chunkLast] at hc
          obtain ⟨l2, hl2, hfl⟩ := exceptMap_ok _ _ _ hc
          subst hfl
          intro u hu
          rcases List.mem_cons.mp hu with h1 | h2
          · rw [h1]; exact h x (by simp)
          · exact ih l2 (fun w hw => h w (by simp [hw])) hl2 u h2


/-- The control branch keeps the token language and the emitted list. -/
lemma decodeCtrl_lang (b0 : BASICToken) (s : LexState) :
    (decodeCtrl b0 s).1.language = b0.language ∧
    (decodeCtrl b0 s).2.decodedTokens = s.decodedTokens := by
  unfold decodeCtrl
  dsimp only
  split <;> exact ⟨rfl, rfl⟩

/-- The comment sub-lexer keeps the token language and the emitted list. -/
lemma decodeComment_lang (b0 : BASICToken) (s : LexState) :
    (decodeComment b0 s).1.language = b0.language ∧
    (decodeComment b0 s).2.decodedTokens = s.decodedTokens := by
  unfold decodeComment
  dsimp only
  constructor
  · rfl
  · (repeat' split) <;> rfl

/-- The command sub-lexer keeps the token language and the emitted list. -/
lemma decodeCmd_lang (repl : Bool) (b0 : BASICToken) (s : LexState)
    (b1 : BASICToken) (s1 : LexState)
    (h : decodeCmd repl b0 s = .ok (b1, s1)) :
    b1.language = b0.language ∧ s1.decodedTokens = s.decodedTokens := by
  unfold decodeCmd at h
  dsimp only at h
  split at h
  · cases h
    constructor <;> (repeat' split) <;> rfl
  · split at h
    · cases h
    · split at h
      · cases h
        constructor <;> (repeat' split) <;> rfl
      · cases h
        constructor <;> (repeat' split) <;> rfl

/-- The dot disambiguation keeps the token language and the languages of
the emitted list. -/
lemma disambiguateDot_lang (b0 : BASICToken) (s : LexState)
    (b1 : BASICToken) (s1 : LexState)
    (h : disambiguateDot b0 s = .ok (b1, s1)) :
    b1.language = b0.language ∧
    s1.decodedTokens.map BASICToken.language = s.decodedTokens.map BASICToken.language := by
  unfold disambiguateDot at h
  split at h
  · cases h; exact ⟨rfl, rfl⟩
  · split at h
    · cases h; exact ⟨rfl, setLastSyn_languages _ _⟩
    · split at h
      · cases h
      · split at h
        · cases h; exact ⟨rfl, setLastSyn_languages _ _⟩
        · cases h; exact ⟨rfl, rfl⟩

/-- The ASCII sub-lexer keeps the token language and the languages of the
emitted list (its retags only touch the tag field). -/
lemma decodeAscii_lang (b0 : BASICToken) (s : LexState)
    (b1 : BASICToken) (s1 : LexState)
    (h : decodeAscii b0 s = .ok (b1, s1)) :
    b1.language = b0.language ∧
    s1.decodedTokens.map BASICToken.language = s.decodedTokens.map BASICToken.language := by
  unfold decodeAscii at h
  dsimp only at h
  split at h
  case isTrue hq =>
    by_cases hp : s.parenthesis + 1 = 2
    · simp only [if_pos hp] at h
      obtain ⟨⟨pb, ps⟩, hstep, hfp⟩ := exceptMap_ok _ _ _ h
      have hmain : pb.language = b0.language ∧
          ps.decodedTokens.map BASICToken.language = s.decodedTokens.map BASICToken.language := by
        split at hstep
        · cases hstep; exact ⟨rfl, rfl⟩
        · split at hstep
          · have hd := disambiguateDot_lang _ _ _ _ hstep
            exact ⟨hd.1, hd.2⟩
          · split at hstep
            · repeat' split at hstep
              all_goals
                (cases hstep; refine ⟨rfl, ?_⟩;
                 first
                   | rfl
                   | exact setLastSyn_languages _ _)
            · split at hstep
              · repeat' split at hstep
                all_goals
                  (cases hstep; refine ⟨rfl, ?_⟩;
                   first
                     | rfl
                     | exact setLastSyn_languages _ _)
              · cases hstep; exact ⟨rfl, rfl⟩
      split at hfp <;> (cases hfp; exact ⟨hmain.1, hmain.2⟩)
    · simp only [if_neg hp] at h
      obtain ⟨⟨pb, ps⟩, hstep, hfp⟩ := exceptMap_ok _ _ _ h
      have hmain : pb.language = b0.language ∧
          ps.decodedTokens.map BASICToken.language = s.decodedTokens.map BASICToken.language := by
        split at hstep
        · cases hstep; exact ⟨rfl, rfl⟩
        · split at hstep
          · have hd := disambiguateDot_lang _ _ _ _ hstep
            exact ⟨hd.1, hd.2⟩
          · split at hstep
            · repeat' split at hstep
              all_goals
                (cases hstep; refine ⟨rfl, ?_⟩;
                 first
                   | rfl
                   | exact setLastSyn_languages _ _)
            · split at hstep
              · repeat' split at hstep
                all_goals
                  (cases hstep; refine ⟨rfl, ?_⟩;
                   first
                     | rfl
                     | exact setLastSyn_languages _ _)
              · cases hstep; exact ⟨rfl, rfl⟩
      split at hfp <;> (cases hfp; exact ⟨hmain.1, hmain.2⟩)
  case isFalse hq =>
    obtain ⟨⟨pb, ps⟩, hstep, hfp⟩ := exceptMap_ok _ _ _ h
    have hmain : pb.language = b0.language ∧
        ps.decodedTokens.map BASICToken.language = s.decodedTokens.map BASICToken.language := by
      split at hstep
      · cases hstep; exact ⟨rfl, rfl⟩
      · split at hstep
        · have hd := disambiguateDot_lang _ _ _ _ hstep
          exact ⟨hd.1, hd.2⟩
        · split at hstep
          · repeat' split at hstep
            all_goals
              (cases hstep; refine ⟨rfl, ?_⟩;
               first
                 | rfl
                 | exact setLastSyn_languages _ _)
          · split at hstep
            · repeat' split at hstep
              all_goals
                (cases hstep; refine ⟨rfl, ?_⟩;
                 first
                   | rfl
                   | exact setLastSyn_languages _ _)
            · cases hstep; exact ⟨rfl, rfl⟩
    split at hfp <;> (cases hfp; exact ⟨hmain.1, hmain.2⟩)

/-- The string sub-lexer keeps the token language and the languages of the
emitted list. -/
lemma decodeString_lang (repl : Bool) (b0 : BASICToken) (s : LexState)
    (b1 : BASICToken) (s1 : LexState)
    (h : decodeString repl b0 s = .ok (b1, s1)) :
    b1.language = b0.language ∧
    s1.decodedTokens.map BASICToken.language = s.decodedTokens.map BASICToken.language := by
  unfold decodeString at h
  dsimp only at h
  split at h
  · split at h
    · cases h; exact ⟨rfl, rfl⟩
    · cases h; exact ⟨rfl, rfl⟩
  · split at h
    · split at h
      · cases h; exact ⟨rfl, rfl⟩
      · split at h
        · exact decodeAscii_lang _ _ _ _ h
        · have hc := decodeCmd_lang _ _ _ _ _ h
          exact ⟨hc.1, by rw [hc.2]⟩
    · cases h; exact ⟨rfl, rfl⟩

/-- The unary-sign pass keeps the languages of the emitted list. -/
lemma unary_langs (s : LexState) (s1 : LexState)
    (h : disambiguateUnarySigns s = .ok s1) :
    s1.decodedTokens.map BASICToken.language = s.decodedTokens.map BASICToken.language := by
  unfold disambiguateUnarySigns at h
  split at h
  · cases h; rfl
  · split at h
    · split at h
      · dsimp only at h
        split at h
        · cases h; exact setLastSyn_languages _ _
        · cases h; rfl
      · cases h
    · cases h; rfl


/-- One byte of the lexer loop keeps every emitted token BASIC. -/
lemma lexStep_allBasic (repl : Bool) (lineno : Nat) (s : LexState) (v : Nat)
    (s1 : LexState) (hP : allBasic s.decodedTokens)
    (h : lexStep repl lineno s v = .ok s1) : allBasic s1.decodedTokens := by
  unfold lexStep at h
  dsimp only at h
  split at h
  · cases h; exact hP
  · split at h
    · cases h
    · rename_i b s1mid heq
      have hmid : b.language = Language.basic ∧ allBasic s1mid.decodedTokens := by
        split at heq
        · have hd := decodeString_lang _ _ _ _ _ heq
          exact ⟨hd.1, allBasic_of_languages_eq _ _ hd.2 hP⟩
        · split at heq
          · have hpair : decodeComment (mkBToken v lineno) s = (b, s1mid) := Except.ok.inj heq
            have hc := decodeComment_lang (mkBToken v lineno) s
            rw [hpair] at hc
            dsimp only at hc
            exact ⟨hc.1, by rw [hc.2]; exact hP⟩
          · split at heq
            · have hpair : decodeCtrl (mkBToken v lineno) s = (b, s1mid) := Except.ok.inj heq
              have hc := decodeCtrl_lang (mkBToken v lineno) s
              rw [hpair] at hc
              dsimp only at hc
              exact ⟨hc.1, by rw [hc.2]; exact hP⟩
            · split at heq
              · have hd := decodeAscii_lang _ _ _ _ heq
                exact ⟨hd.1, allBasic_of_languages_eq _ _ hd.2 hP⟩
              · have hc := decodeCmd_lang _ _ _ _ _ heq
                exact ⟨hc.1, by rw [hc.2]; exact hP⟩
      split at h
      · cases h
      · rename_i s2 hequ
        have h2 : allBasic s2.decodedTokens :=
          allBasic_of_languages_eq _ _ (unary_langs _ _ hequ) hmid.2
        split at h
        · cases h
        · rename_i toks htoks
          have htoksB : allBasic toks := by
            split at htoks
            · cases htoks
              intro t ht
              rcases List.mem_append.mp ht with h1 | h2m
              · exact h2 t h1
              · simp at h2m
                rw [h2m]
                exact hmid.1
            · exact chunkLast_allBasic _ hmid.1 _ _ h2 htoks
          cases h
          exact checkForSystemVar_allBasic _ htoksB

/-- The claim C8 condition on a lexed line, stated declaratively: the first
token's text is DATA case-insensitively and every character of every
subsequent token's text belongs to the assembly character set. -/
def asmLineCond (ts : List BASICToken) : Prop :=
  match ts with
  | [] => False
  | t0 :: rest =>
      lowerStr t0.token = "data" ∧
      ∀ t ∈ rest, ∀ c ∈ t.token.data, isAssemblyChar c = true

/-- The declarative condition coincides with the boolean test that
_check_line_language performs. -/
lemma asmLineCond_iff (t0 : BASICToken) (rest : List BASICToken) :
    asmLineCond (t0 :: rest) ↔
      (lowerStr t0.token = "data" ∧
        (rest.all fun t => t.token.data.all isAssemblyChar) = true) := by
  simp [asmLineCond, List.all_eq_true]

/-- Claim C8: after a line is fully lexed, a token of the line carries the
ASSEMBLY language exactly when the line's first token text is DATA
case-insensitively and every character of every subsequent token's text
lies in the assembly character set; otherwise every token stays BASIC. -/
theorem C8_line_language (repl : Bool) (lineno : Nat) (bs : List Nat)
    (ts : List BASICToken) (h : lexLine repl lineno bs = .ok ts) :
    ∀ t ∈ ts, (t.language = Language.assembly ↔ asmLineCond ts) := by
  unfold lexLine at h
  obtain ⟨sfin, hrun, hts⟩ := exceptMap_ok _ _ _ h
  have hbasic : allBasic sfin.decodedTokens :=
    foldlM_lexStep_inv repl lineno (fun s => allBasic s.decodedTokens)
      (fun s v s2 hPs hs => lexStep_allBasic repl lineno s v s2 hPs hs)
      bs initState sfin (by intro t ht; simp [initState] at ht) hrun
  subst hts
  revert hbasic
  generalize sfin.decodedTokens = ts0
  intro hbasic
  cases ts0 with
  | nil => intro t ht; simp [checkLineLanguage] at ht
  | cons t0 rest =>
      unfold checkLineLanguage
      dsimp only
      split
      · rename_i hcond
        intro t ht
        simp only [List.map_cons] at ht ⊢
        constructor
        · intro _
          refine (asmLineCond_iff _ _).mpr ⟨hcond.1, ?_⟩
          rw [List.all_map]
          exact hcond.2
        · intro _
          rcases List.mem_cons.mp ht with h1 | h2
          · rw [h1]
          · obtain ⟨u, hu, hut⟩ := List.mem_map.mp h2
            rw [← hut]
      · rename_i hcond
        intro t ht
        constructor
        · intro hasm
          rw [hbasic t ht] at hasm
          cases hasm
        · intro hcondP
          exfalso
          exact hcond ((asmLineCond_iff _ _).mp hcondP)

/-- The tokens of the E5 DATA line, used by the claim C8 witness. -/
def c8Toks : List BASICToken :=
  [⟨0x83, 40, [0x83], "0x83", "DATA", "KW", Language.assembly⟩,
   ⟨57, 40, [65, 57], "0x41 0x39", "a9", "DA", Language.assembly⟩,
   ⟨44, 40, [44], "0x2c", ",", "PO", Language.assembly⟩,
   ⟨36, 40, [36], "0x24", "$", "DA", Language.assembly⟩,
   ⟨50, 40, [49, 50], "0x31 0x32", "12", "DA", Language.assembly⟩]

/-- Claim C8 witness: on the E5 DATA line the first token's assembly flag
is equivalent to the line condition, by the theorem applied to the lexed
line. -/
theorem C8_witness :
    ((⟨0x83, 40, [0x83], "0x83", "DATA", "KW", Language.assembly⟩ : BASICToken).language =
        Language.assembly ↔ asmLineCond c8Toks) :=
  C8_line_language true 40 [0x83, 0x20, 0x41, 0x39, 0x2C, 0x24, 0x31, 0x32]
    c8Toks (by decide) _ (by decide)


lemma checkForSystemVar_comment (ts : List BASICToken) (c t : BASICToken)
    (hgl : ts.getLast? = some t) (htok : t.token = "REM")
    (hsyn : c.syn = tagStringComment ∨ c.syn = tagOperUnary) :
    checkForSystemVar (ts ++ [c]) = ts ++ [c] := by
  have hsw : startsWithCh c.syn 'V' = false := by
    rcases hsyn with h | h <;> rw [h] <;> rfl
  unfold checkForSystemVar
  rw [List.getLast?_concat]
  dsimp only
  rw [hsw]
  simp only [Bool.false_eq_true, if_false]
  split
  · -- length > 2: inspect the reversed list
    have hrev : (ts ++ [c]).reverse = c :: ts.reverse := by simp
    have hhead : ts.reverse.head? = some t := by
      rw [List.head?_reverse]
      exact hgl
    cases hr : ts.reverse with
    | nil => rw [hr] at hhead; cases hhead
    | cons t2 r2 =>
        rw [hr] at hhead
        have ht2 : t2 = t := by
          simp at hhead
          exact hhead
        rw [hrev, hr, ht2]
        dsimp only
        rw [htok]
        rw [if_neg (by decide : ¬(lowerStr "REM" = "ti" ∨ lowerStr "REM" = "time"))]
  · rfl


lemma lexStep_comment_fresh (repl : Bool) (lineno v : Nat) (s : LexState)
    (t : BASICToken)
    (hc : s.commentCmd = true) (hsd : s.stringDecl = false)
    (happ : s.appendBtoken = true)
    (hlast : s.lastChar = some t) (hgl : s.decodedTokens.getLast? = some t)
    (htok : t.token = "REM") (hval : t.value = 0x8F) :
    lexStep repl lineno s v = .ok
      { s with
        decodedTokens := s.decodedTokens ++
          [⟨v, lineno, [v], byteReprOf v, commentGlyph v [v], tagStringComment, Language.basic⟩],
        lastChar :=
          some ⟨v, lineno, [v], byteReprOf v, commentGlyph v [v], tagStringComment, Language.basic⟩ } := by
  have hwithin : withinStringLike s = true := by simp [withinStringLike, hc]
  unfold lexStep
  dsimp only
  rw [hwithin]
  simp only [Bool.not_true, Bool.and_false, Bool.false_eq_true, if_false]
  rw [hsd]
  simp only [Bool.false_eq_true, if_false]
  rw [hc]
  simp only [if_true]
  have hdc : decodeComment (mkBToken v lineno) s =
      (⟨v, lineno, [v], byteReprOf v, commentGlyph v [v], tagStringComment, Language.basic⟩, s) := by
    unfold decodeComment
    dsimp only [mkBToken]
    rw [hlast]
    dsimp only
    rw [hval]
    simp
  have hun : disambiguateUnarySigns s = .ok s := by
    unfold disambiguateUnarySigns
    rw [hlast]
    dsimp only
    rw [htok]
    rw [if_neg (by decide : ¬("REM" = "+" ∨ "REM" = "-"))]
  rw [hdc]
  dsimp only
  rw [hun]
  dsimp only
  rw [happ]
  simp only [if_true]
  rw [checkForSystemVar_comment s.decodedTokens _ t hgl htok (Or.inl rfl)]
  rw [List.getLast?_concat]
  rw [hc, hsd]


lemma setTokens_eta (s : LexState) (l : List BASICToken)
    (h : s.decodedTokens = l) : { s with decodedTokens := l } = s := by
  obtain ⟨f1, f2, f3, f4, f5, f6, f7, f8⟩ := s
  simp only at h
  rw [h]

lemma setLastSyn_append (ts : List BASICToken) (c : BASICToken) (tag : String) :
    setLastSyn (ts ++ [c]) tag = ts ++ [{ c with syn := tag }] := by
  induction ts with
  | nil => rfl
  | cons x rest ih =>
      cases rest with
      | nil => rfl
      | cons y rest2 =>
          simp only [List.cons_append, setLastSyn, List.append_eq] at ih ⊢
          rw [ih]

lemma chunkLast_append (ts : List BASICToken) (c b : BASICToken) :
    chunkLast (ts ++ [c]) b =
      (match biadd c b with
       | some m => .ok (ts ++ [m])
       | none => .error .addMismatch) := by
  induction ts with
  | nil => cases hbi : biadd c b <;> simp [chunkLast, hbi, Except.map]
  | cons x rest ih =>
      cases rest with
      | nil => cases hbi : biadd c b <;> simp [chunkLast, hbi, Except.map]
      | cons y rest2 =>
          simp only [List.cons_append, chunkLast, List.append_eq] at ih ⊢
          rw [ih]
          cases hbi : biadd c b <;> simp [hbi, Except.map]

lemma unary_comment (s : LexState) (ts : List BASICToken) (c t : BASICToken)
    (htoks : s.decodedTokens = ts ++ [c]) (hlastc : s.lastChar = some c)
    (hgl : ts.getLast? = some t)
    (hsyn : c.syn = tagStringComment ∨ c.syn = tagOperUnary) :
    ∃ c2, disambiguateUnarySigns s = .ok { s with decodedTokens := ts ++ [c2] } ∧
      c2.bytes = c.bytes ∧ c2.lineno = c.lineno ∧ c2.language = c.language ∧
      (c2.syn = tagStringComment ∨ c2.syn = tagOperUnary) := by
  have hrevc : (ts ++ [c]).reverse = c :: ts.reverse := by simp
  unfold disambiguateUnarySigns
  rw [hlastc]
  dsimp only
  by_cases hsign : c.token = "+" ∨ c.token = "-"
  · rw [if_pos hsign]
    rw [htoks, hrevc]
    have hhead : ts.reverse.head? = some t := by
      rw [List.head?_reverse]
      exact hgl
    cases hr : ts.reverse with
    | nil => rw [hr] at hhead; cases hhead
    | cons t2 r2 =>
        dsimp only
        split
        · refine ⟨{ c with syn := tagOperUnary }, ?_, rfl, rfl, rfl, Or.inr rfl⟩
          rw [setLastSyn_append]
        · exact ⟨c, by rw [← hlastc]; rw [setTokens_eta s (ts ++ [c]) htoks], rfl, rfl, rfl, hsyn⟩
  · rw [if_neg hsign]
    exact ⟨c, by rw [← hlastc]; rw [setTokens_eta s (ts ++ [c]) htoks], rfl, rfl, rfl, hsyn⟩

lemma lexStep_comment_chunk (repl : Bool) (lineno v : Nat) (s : LexState)
    (ts : List BASICToken) (c t : BASICToken)
    (hc : s.commentCmd = true) (hsd : s.stringDecl = false)
    (happ2 : s.appendBtoken = false ∨ ¬ c.value = 0x8F)
    (htoks : s.decodedTokens = ts ++ [c]) (hlastc : s.lastChar = some c)
    (hgl : ts.getLast? = some t) (htok : t.token = "REM")
    (hclin : c.lineno = lineno) (hclang : c.language = Language.basic)
    (hsyn : c.syn = tagStringComment ∨ c.syn = tagOperUnary) :
    ∃ s1 c1, lexStep repl lineno s v = .ok s1 ∧
      s1.commentCmd = true ∧ s1.stringDecl = false ∧ s1.appendBtoken = false ∧
      s1.decodedTokens = ts ++ [c1] ∧ s1.lastChar = some c1 ∧
      c1.bytes = c.bytes ++ [v] ∧ c1.lineno = lineno ∧
      c1.language = Language.basic ∧
      (c1.syn = tagStringComment ∨ c1.syn = tagOperUnary) := by
  have hwithin : withinStringLike s = true := by simp [withinStringLike, hc]
  have hdc : decodeComment (mkBToken v lineno) s =
      (⟨v, lineno, [v], byteReprOf v, commentGlyph v [v], tagStringComment, Language.basic⟩,
       { s with appendBtoken := false }) := by
    unfold decodeComment
    dsimp only [mkBToken]
    rw [hlastc]
    dsimp only
    rcases happ2 with happ | hval
    · have hEtaApp : { s with appendBtoken := false } = s := by
        obtain ⟨f1, f2, f3, f4, f5, f6, f7, f8⟩ := s
        simp only at happ
        simp [happ]
      split
      · rfl
      · exact congrArg (Prod.mk _) (by rw [← hlastc]; exact hEtaApp.symm)
    · rw [if_pos hval]
  obtain ⟨c2, hun2, hb2, hl2, hg2, hs2⟩ :=
    unary_comment { s with appendBtoken := false } ts c t htoks hlastc hgl hsyn
  have hcond : c2.lineno = (⟨v, lineno, [v], byteReprOf v, commentGlyph v [v], tagStringComment, Language.basic⟩ : BASICToken).lineno ∧
      c2.language = (⟨v, lineno, [v], byteReprOf v, commentGlyph v [v], tagStringComment, Language.basic⟩ : BASICToken).language :=
    ⟨by rw [hl2, hclin], by rw [hg2, hclang]⟩
  have hbi : biadd c2 ⟨v, lineno, [v], byteReprOf v, commentGlyph v [v], tagStringComment, Language.basic⟩ =
      some { c2 with value := v, bytes := c2.bytes ++ [v],
                     byteRepr := c2.byteRepr ++ " " ++ byteReprOf v,
                     token := c2.token ++ commentGlyph v [v] } := by
    unfold biadd
    rw [if_pos hcond]
  unfold lexStep
  dsimp only
  rw [hwithin]
  simp only [Bool.not_true, Bool.and_false, Bool.false_eq_true, if_false]
  rw [hsd]
  simp only [Bool.false_eq_true, if_false]
  rw [hc]
  simp only [if_true]
  rw [hdc]
  dsimp only
  rw [hun2]
  dsimp only
  simp only [Bool.false_eq_true, if_false]
  rw [chunkLast_append]
  rw [hbi]
  dsimp only
  rw [checkForSystemVar_comment ts _ t hgl htok (by simpa using hs2)]
  rw [List.getLast?_concat]
  refine ⟨_, _, rfl, hc, hsd, rfl, rfl, rfl, ?_, ?_, ?_, ?_⟩
  · simp [hb2]
  · simp [hl2, hclin]
  · simp [hg2, hclang]
  · simpa using hs2

lemma comment_run (repl : Bool) (lineno : Nat) (rest : List Nat) :
    ∀ (s : LexState) (ts : List BASICToken) (c t : BASICToken),
    s.commentCmd = true → s.stringDecl = false →
    (s.appendBtoken = false ∨ ¬ c.value = 0x8F) →
    s.decodedTokens = ts ++ [c] → s.lastChar = some c →
    ts.getLast? = some t → t.token = "REM" →
    c.lineno = lineno → c.language = Language.basic →
    (c.syn = tagStringComment ∨ c.syn = tagOperUnary) →
    ∃ s1 c1, List.foldlM (lexStep repl lineno) s rest = .ok s1 ∧
      s1.decodedTokens = ts ++ [c1] ∧
      c1.bytes = c.bytes ++ rest ∧ c1.lineno = lineno := by
  induction rest with
  | nil =>
      intro s ts c t hc hsd happ2 htoks hlastc hgl htok hclin hclang hsyn
      exact ⟨s, c, rfl, htoks, by simp, hclin⟩
  | cons v vs ih =>
      intro s ts c t hc hsd happ2 htoks hlastc hgl htok hclin hclang hsyn
      obtain ⟨s1, c1, hstep, hc1, hsd1, happ1, htoks1, hlast1, hby1, hlin1, hlang1, hsyn1⟩ :=
        lexStep_comment_chunk repl lineno v s ts c t hc hsd happ2 htoks hlastc hgl htok hclin hclang hsyn
      obtain ⟨s2, c2, hfold, htoks2, hby2, hlin2⟩ :=
        ih s1 ts c1 t hc1 hsd1 (Or.inl happ1) htoks1 hlast1 hgl htok hlin1 hlang1 hsyn1
      refine ⟨s2, c2, ?_, htoks2, ?_, hlin2⟩
      · rw [List.foldlM_cons, hstep]
        exact hfold
      · rw [hby2, hby1]
        simp


/-- C7 (amended): for every line position right after the REM keyword token
(comment mode on, string mode off, append flag set, last token REM with value
0x8F), the first following byte b0 begins a fresh comment token and, provided
b0 is not itself 0x8F, every subsequent byte of the line is concatenated onto
that token, so the line ends with exactly one token after the REM token,
carrying the whole byte tail. -/
theorem C7_amended (repl : Bool) (lineno : Nat) (s : LexState) (t : BASICToken)
    (b0 : Nat) (rest : List Nat)
    (hc : s.commentCmd = true) (hsd : s.stringDecl = false)
    (happ : s.appendBtoken = true)
    (hlast : s.lastChar = some t) (hgl : s.decodedTokens.getLast? = some t)
    (htok : t.token = "REM") (hval : t.value = 0x8F)
    (hb0 : ¬ b0 = 0x8F) :
    ∃ s1 c1, List.foldlM (lexStep repl lineno) s (b0 :: rest) = .ok s1 ∧
      s1.decodedTokens = s.decodedTokens ++ [c1] ∧
      c1.bytes = b0 :: rest ∧ c1.lineno = lineno := by
  have hfresh := lexStep_comment_fresh repl lineno b0 s t hc hsd happ hlast hgl htok hval
  obtain ⟨s1, c1, hfold, htoks1, hby1, hlin1⟩ :=
    comment_run repl lineno rest
      { s with
        decodedTokens := s.decodedTokens ++
          [⟨b0, lineno, [b0], byteReprOf b0, commentGlyph b0 [b0], tagStringComment, Language.basic⟩],
        lastChar :=
          some ⟨b0, lineno, [b0], byteReprOf b0, commentGlyph b0 [b0], tagStringComment, Language.basic⟩ }
      s.decodedTokens
      ⟨b0, lineno, [b0], byteReprOf b0, commentGlyph b0 [b0], tagStringComment, Language.basic⟩
      t hc hsd (Or.inr hb0) rfl rfl hgl htok rfl rfl (Or.inl rfl)
  refine ⟨s1, c1, ?_, htoks1, ?_, hlin1⟩
  · rw [List.foldlM_cons, hfresh]
    exact hfold
  · simpa using hby1

/-- The REM keyword token of line 10, seed of the claim C7 witness state. -/
def c7Rem : BASICToken :=
  ⟨0x8F, 10, [0x8F], byteReprOf 0x8F, "REM", tagCommand, Language.basic⟩

/-- The lexer state right after the REM command byte on line 10, used by the
claim C7 witness. -/
def c7State : LexState :=
  ⟨true, false, false, false, 0, some c7Rem, true, [c7Rem]⟩

/-- Claim C7 witness: from the post-REM state on line 10, the byte tail
41 42 ("ab") folds into a single comment token holding both bytes. -/
theorem C7_witness :
    ∃ s1 c1, List.foldlM (lexStep true 10) c7State [0x41, 0x42] = .ok s1 ∧
      s1.decodedTokens = c7State.decodedTokens ++ [c1] ∧
      c1.bytes = [0x41, 0x42] ∧ c1.lineno = 10 :=
  C7_amended true 10 c7State c7Rem 0x41 [0x42] rfl rfl rfl rfl rfl rfl rfl
    (by decide)

end BASICParser
